import Mathlib

/-!
A shallow embedding of the claim-validation pipeline of the med-app-api
repository, together with proofs about it.

Embedded components (file of origin in parentheses):
* the error-kind combiner and the batch orchestrator (`pipeline/tasks.py`),
* the technical rule evaluator (`pipeline/rules.py`),
* the LLM gateway's medical-claim evaluation and its error fallbacks
  (`pipeline/llm.py`),
* the task admission controller (`shared/task_manager.py`),
* the legacy `error_explanation` decoder (`claims/services.py`,
  `validation/router.py`).

Python strings are modelled as Lean `String`, Python `None`-able values as
`Option`, Python floats (used only for comparisons, additions and literal
assignments, never for rounding-sensitive arithmetic) as `ℚ`, and Python
exceptions as `Except String`.  External collaborators (the redis rule
cache, the SQL tables, the Gemini endpoint) are passed in explicitly: the
cache as `Option` rule-set values, the database as lists of rows, the LLM
endpoint as an oracle function returning either a structured response or
a raised-exception message.
-/

namespace MedApp

/-! ## Error-kind combination (`pipeline/tasks.py`, `_combine_error_types`) -/

/-- Embeds `_combine_error_types(technical_type, medical_type)` from
`pipeline/tasks.py`: `"No error"` if both are `"No error"`, `"both"` if both
differ from `"No error"`, otherwise whichever input differs from
`"No error"`. -/
def combineErrorTypes (technical_type medical_type : String) : String :=
  if technical_type = "No error" ∧ medical_type = "No error" then
    "No error"
  else if technical_type ≠ "No error" ∧ medical_type ≠ "No error" then
    "both"
  else if technical_type ≠ "No error" then
    technical_type
  else
    medical_type

/-- The three single-source error kinds named by the specification:
no error, technical error, medical error. -/
def errorKinds : List String := ["No error", "Technical error", "Medical error"]

end MedApp

/-- C1: over the kinds \x7bNoError, TechnicalError, MedicalError\x7d the
combiner is commutative, maps (NoError, NoError) to NoError, maps
(X, NoError) to X for X ≠ NoError, and maps any two non-NoError kinds to
"both". -/
theorem combine_error_types_table (k1 k2 : String)
    (h1 : k1 ∈ MedApp.errorKinds) (h2 : k2 ∈ MedApp.errorKinds) :
    MedApp.combineErrorTypes k1 k2 = MedApp.combineErrorTypes k2 k1 ∧
    MedApp.combineErrorTypes "No error" "No error" = "No error" ∧
    (k1 ≠ "No error" → MedApp.combineErrorTypes k1 "No error" = k1) ∧
    (k1 ≠ "No error" → k2 ≠ "No error" →
      MedApp.combineErrorTypes k1 k2 = "both") := by
  simp only [MedApp.errorKinds, List.mem_cons, List.not_mem_nil, or_false] at h1 h2
  rcases h1 with rfl | rfl | rfl <;> rcases h2 with rfl | rfl | rfl <;>
    refine ⟨by decide, by decide, ?_, ?_⟩ <;> decide

/-- Witness for `combine_error_types_table`: instantiated at the pair
(TechnicalError, MedicalError), whose combination is "both". -/
theorem combine_error_types_table_witness :
    MedApp.combineErrorTypes "Technical error" "Medical error" = "both" :=
  (combine_error_types_table "Technical error" "Medical error"
    (by decide) (by decide)).2.2.2 (by decide) (by decide)

namespace MedApp

/-! ## Task admission controller (`shared/task_manager.py`) -/

/-- One persisted `TaskStatus` row (`shared/models.py`), restricted to the
columns the admission check reads. -/
structure TaskRow where
  task_id : String
  task_type : String
  status : String
  user_id : String
deriving DecidableEq, Repr

/-- Embeds `TaskManager.get_active_tasks(db, task_type)`: the rows whose
status is `"pending"` or `"running"`, further filtered by task type when one
is given, in store order. -/
def getActiveTasks (store : List TaskRow) (task_type : Option String) : List TaskRow :=
  (store.filter (fun t => t.status == "pending" || t.status == "running")).filter
    (fun t => match task_type with
      | some tt => t.task_type == tt
      | none => true)

/-- Embeds `TaskManager.can_start_task(db, task_type, user_id)`: returns
whether a new task may start together with a reason string.  The first
check rejects when any active task of the same type exists; the second
filters the (then necessarily empty) same-type active list by owner. -/
def canStartTask (store : List TaskRow) (task_type user_id : String) :
    Bool × String :=
  let active_tasks := getActiveTasks store (some task_type)
  match active_tasks with
  | task :: _ =>
      (false, "Task '" ++ task.task_id ++ "' is already " ++ task.status)
  | [] =>
      let user_active_tasks := active_tasks.filter (fun t => t.user_id == user_id)
      if user_active_tasks.length ≥ 1 then
        (false, "You already have an active task running")
      else
        (true, "Task can be started")

end MedApp

/-- C4 (code bug): `can_start_task` does NOT enforce the one-task-per-user
cap across task types.  With a store holding a pending `"upload"` task owned
by `"alice"`, the request `canStart("validation", "alice")` is admitted,
although the claim (and the code's own comment "Allow only 1 concurrent
task per user") requires it to be rejected: the user filter runs over the
same-type active list, which is necessarily empty at that point. -/
theorem can_start_task_ignores_cross_type_user_cap :
    MedApp.canStartTask
      [{ task_id := "upload_1", task_type := "upload",
         status := "pending", user_id := "alice" }]
      "validation" "alice"
    = (true, "Task can be started") := by
  decide

/-- C5: whenever some persisted row of the requested task type is pending or
running, `can_start_task` rejects every requesting user, and the returned
reason contains the task id of a blocking row (the first active same-type
row in store order). -/
theorem can_start_task_single_flight (store : List MedApp.TaskRow)
    (task_type user_id : String) (t : MedApp.TaskRow)
    (ht : t ∈ store) (hstat : t.status = "pending" ∨ t.status = "running")
    (htt : t.task_type = task_type) :
    (MedApp.canStartTask store task_type user_id).1 = false ∧
    ∃ b ∈ store, b.task_type = task_type ∧
      (b.status = "pending" ∨ b.status = "running") ∧
      (MedApp.canStartTask store task_type user_id).2
        = "Task '" ++ b.task_id ++ "' is already " ++ b.status := by
  have hmem : t ∈ MedApp.getActiveTasks store (some task_type) := by
    simp only [MedApp.getActiveTasks, List.mem_filter]
    refine ⟨⟨ht, ?_⟩, ?_⟩
    · rcases hstat with h | h <;> simp [h]
    · simp [htt]
  rcases hcase : MedApp.getActiveTasks store (some task_type) with _ | ⟨b, rest⟩
  · rw [hcase] at hmem; exact absurd hmem (List.not_mem_nil t)
  · have hb : b ∈ MedApp.getActiveTasks store (some task_type) := by
      rw [hcase]; exact List.mem_cons_self b rest
    simp only [MedApp.getActiveTasks, List.mem_filter] at hb
    obtain ⟨⟨hbstore, hbact⟩, hbtype⟩ := hb
    refine ⟨?_, b, hbstore, ?_, ?_, ?_⟩
    · simp only [MedApp.canStartTask, hcase]
    · simpa using hbtype
    · rcases h : b.status == "pending" with _ | _
      · right
        have := hbact
        rw [h] at this
        simpa using this
      · left; simpa using h
    · simp only [MedApp.canStartTask, hcase]

/-- Witness for `can_start_task_single_flight`: a store with one running
validation task named `val_7` blocks a new validation task for user
`"bob"`, and the reason names `val_7`. -/
theorem can_start_task_single_flight_witness :
    (MedApp.canStartTask
      [{ task_id := "val_7", task_type := "validation",
         status := "running", user_id := "alice" }]
      "validation" "bob").1 = false :=
  (can_start_task_single_flight
    [{ task_id := "val_7", task_type := "validation",
       status := "running", user_id := "alice" }]
    "validation" "bob"
    { task_id := "val_7", task_type := "validation",
      status := "running", user_id := "alice" }
    (by decide) (by decide) (by decide)).1

namespace MedApp

/-! ## LLM gateway (`pipeline/llm.py`, `LLMService`) -/

/-- Whether the character list `pat` is an initial segment of `s`. -/
def startsWithChars : List Char → List Char → Bool
  | [], _ => true
  | _ :: _, [] => false
  | p :: ps, c :: cs => p == c && startsWithChars ps cs

/-- Whether the character list `pat` occurs contiguously inside `s`. -/
def hasSubChars (pat : List Char) : List Char → Bool
  | [] => startsWithChars pat []
  | c :: cs => startsWithChars pat (c :: cs) || hasSubChars pat cs

/-- Python's substring test `pat in s`. -/
def strContains (s pat : String) : Bool :=
  hasSubChars pat.data s.data

/-- The schema-constrained structured response `MedicalAnalysisResponse`
(`pipeline/llm.py`). -/
structure MedicalAnalysisResponse where
  is_medically_appropriate : Bool
  medical_necessity_concerns : List String
  alignment_with_standards : String
  recommendations : List String
  confidence_score : ℚ
deriving DecidableEq, Repr

/-- The plain-dict evaluation result the gateway hands back to callers.
The early-return dict of `evaluate_medical_rules` omits the
`recommendations` and `confidence` keys, so those are optional here
(`[]` / `none` standing for the absent key). -/
structure MedicalResult where
  valid : Bool
  errors : List String
  type : String
  llm_analysis : String
  recommendations : List String := []
  confidence : Option ℚ := none
deriving DecidableEq, Repr

/-- Embeds `LLMService._format_analysis_result`. -/
def formatAnalysisResult (analysis : MedicalAnalysisResponse) : MedicalResult where
  valid := analysis.is_medically_appropriate
  errors := analysis.medical_necessity_concerns
  type := if analysis.is_medically_appropriate = false then "Medical error" else "No error"
  llm_analysis := analysis.alignment_with_standards
  recommendations := analysis.recommendations
  confidence := some analysis.confidence_score

/-- Embeds `LLMService._create_rate_limit_result`. -/
def createRateLimitResult : MedicalResult where
  valid := true
  errors := ["Rate limit exceeded - using basic analysis"]
  type := "No error"
  llm_analysis := "Analysis deferred due to API rate limits"
  recommendations := ["Re-run validation after rate limit reset"]
  confidence := some (1 / 10)

/-- Embeds `LLMService._create_error_result`. -/
def createErrorResult (error_msg : String) : MedicalResult where
  valid := true
  errors := ["LLM evaluation failed: " ++ error_msg]
  type := "No error"
  llm_analysis := "Unable to perform LLM analysis"
  recommendations := ["Manual review recommended"]
  confidence := some 0

/-- The rate-limit classification inside `LLMService._handle_llm_error`:
`"429" in error_msg or "RESOURCE_EXHAUSTED" in error_msg`. -/
def isRateLimitError (error_msg : String) : Bool :=
  strContains error_msg "429" || strContains error_msg "RESOURCE_EXHAUSTED"

/-- Embeds `LLMService._handle_llm_error`. -/
def handleLLMError (error_msg : String) : MedicalResult :=
  if isRateLimitError error_msg then createRateLimitResult
  else createErrorResult error_msg

/-- Embeds `LLMService.evaluate_medical_claim`, with the external Gemini
call abstracted into its outcome: either a structured response or the
message of the exception it raised.  The `try`/`except` of the source makes
the function total: every raised exception is mapped through
`_handle_llm_error`. -/
def evaluateMedicalClaim (llm_outcome : Except String MedicalAnalysisResponse) :
    MedicalResult :=
  match llm_outcome with
  | .ok analysis => formatAnalysisResult analysis
  | .error e => handleLLMError e

end MedApp

/-- C3: when the underlying LLM call raises, `evaluate_medical_claim`
returns instead of raising; the result is always `valid = true` with
exactly one error and kind NoError (never medically non-compliant); a
rate-limit / resource-exhaustion message yields confidence 0.1, and any
other message yields confidence 0.0 with a manual-review recommendation. -/
theorem evaluate_medical_claim_fails_open (e : String) :
    (MedApp.evaluateMedicalClaim (.error e)).valid = true ∧
    (MedApp.evaluateMedicalClaim (.error e)).errors.length = 1 ∧
    (MedApp.evaluateMedicalClaim (.error e)).type = "No error" ∧
    (MedApp.isRateLimitError e = true →
      (MedApp.evaluateMedicalClaim (.error e)).confidence = some (1 / 10)) ∧
    (MedApp.isRateLimitError e = false →
      (MedApp.evaluateMedicalClaim (.error e)).confidence = some 0 ∧
      "Manual review recommended" ∈
        (MedApp.evaluateMedicalClaim (.error e)).recommendations) := by
  cases h : MedApp.isRateLimitError e <;>
    simp [MedApp.evaluateMedicalClaim, MedApp.handleLLMError, h,
      MedApp.createRateLimitResult, MedApp.createErrorResult]

/-- Witness for `evaluate_medical_claim_fails_open`: a simulated HTTP 429
message is classified as a rate limit and comes back valid with
confidence 0.1. -/
theorem evaluate_medical_claim_fails_open_witness :
    (MedApp.evaluateMedicalClaim (.error "429 RESOURCE_EXHAUSTED")).valid = true ∧
    (MedApp.evaluateMedicalClaim (.error "429 RESOURCE_EXHAUSTED")).confidence
      = some (1 / 10) :=
  ⟨(evaluate_medical_claim_fails_open "429 RESOURCE_EXHAUSTED").1,
   (evaluate_medical_claim_fails_open "429 RESOURCE_EXHAUSTED").2.2.2.1 (by decide)⟩

namespace MedApp

/-! ## Character-level models of the Python string operations

`str.split(sep)` (single-character separators only are used by the source)
and `str.strip()` are re-implemented structurally over `List Char` so that
they compute by kernel reduction and so that their behaviour matches
Python exactly (`"".split(",") = [""]`, separators keep empty groups). -/

/-- Python `str.split(sep)` for a one-character separator, over the
character list. -/
def splitChar (sep : Char) : List Char → List (List Char)
  | [] => [[]]
  | c :: cs =>
    match splitChar sep cs with
    | [] => [[]]
    | g :: gs => if c == sep then [] :: g :: gs else (c :: g) :: gs

/-- Python `str.split(sep)` for a one-character separator. -/
def splitString (sep : Char) (s : String) : List String :=
  (splitChar sep s.data).map (fun cs => String.mk cs)

/-- Python `str.strip()`: drop whitespace from both ends. -/
def strTrim (s : String) : String :=
  String.mk ((((s.data.dropWhile Char.isWhitespace).reverse).dropWhile
    Char.isWhitespace).reverse)

/-! ## Technical rule evaluator (`pipeline/rules.py`, `RuleEvaluator`) -/

/-- A value stored in the `claim_data` dict that
`process_claim_batch` builds (`pipeline/tasks.py`): a string, a float
(paid amount), or Python `None`. -/
inductive PyVal where
  | vStr (s : String)
  | vNum (q : ℚ)
  | vNone
deriving DecidableEq, Repr

/-- Python truthiness for the dict values: `None`, `""` and `0` are falsy. -/
def PyVal.truthy : PyVal → Bool
  | .vStr s => decide (s ≠ "")
  | .vNum q => decide (q ≠ 0)
  | .vNone => false

/-- The `claim_data` dict built by `process_claim_batch` from a
`MasterTable` row: all eleven keys are always present, with possibly-`None`
values (the `service_date` is already rendered to its ISO string). -/
structure ClaimData where
  claim_id : String
  encounter_type : Option String := none
  service_date : Option String := none
  national_id : Option String := none
  member_id : Option String := none
  facility_id : Option String := none
  unique_id : Option String := none
  diagnosis_codes : Option String := none
  service_code : Option String := none
  paid_amount_aed : Option ℚ := none
  approval_number : Option String := none
deriving DecidableEq, Repr

/-- A possibly-`None` string as a dict value. -/
def optStrVal : Option String → PyVal
  | some s => .vStr s
  | none => .vNone

/-- `claim_data.get(field)`: `none` when the key is not in the dict at
all, `some .vNone` when it is present with value `None`. -/
def ClaimData.getField (cd : ClaimData) : String → Option PyVal
  | "claim_id" => some (.vStr cd.claim_id)
  | "encounter_type" => some (optStrVal cd.encounter_type)
  | "service_date" => some (optStrVal cd.service_date)
  | "national_id" => some (optStrVal cd.national_id)
  | "member_id" => some (optStrVal cd.member_id)
  | "facility_id" => some (optStrVal cd.facility_id)
  | "unique_id" => some (optStrVal cd.unique_id)
  | "diagnosis_codes" => some (optStrVal cd.diagnosis_codes)
  | "service_code" => some (optStrVal cd.service_code)
  | "paid_amount_aed" => some (match cd.paid_amount_aed with
      | some q => .vNum q
      | none => .vNone)
  | "approval_number" => some (optStrVal cd.approval_number)
  | _ => none

/-- `field not in claim_data or not claim_data.get(field)`. -/
def fieldMissing (cd : ClaimData) (field : String) : Bool :=
  match cd.getField field with
  | none => true
  | some v => !v.truthy

/-- Truthiness of a possibly-`None` string (`not approval_number`). -/
def optTruthy : Option String → Bool
  | none => false
  | some s => decide (s ≠ "")

/-- The cached technical rule set, as read back from redis: each key of the
JSON object is optional, with the defaults applied by the evaluator's
`.get(...)` calls. -/
structure TechnicalRules where
  paid_amount_threshold : Option ℚ := none
  approval_required_services : Option (List String) := none
  approval_required_diagnoses : Option (List String) := none
  required_fields : Option (List String) := none
deriving DecidableEq, Repr

/-- The dict returned by `evaluate_technical_rules`. -/
structure TechResult where
  valid : Bool
  errors : List String
  type : String
deriving DecidableEq, Repr

/-- The required-field error text. -/
def requiredFieldMsg (field : String) : String :=
  "• Required field '" ++ field ++
    "' is missing or empty per Technical Adjudication Guide section 4."

/-- The paid-amount-threshold error text. -/
def thresholdMsg (paid threshold : ℚ) : String :=
  "• Paid amount AED " ++ toString paid ++
    " exceeds policy threshold of AED " ++ toString threshold ++ " per section 3."

/-- The service-approval error text. -/
def serviceApprovalMsg (service_code : String) : String :=
  "• Service code " ++ service_code ++
    " requires prior approval per section 1, but no approval provided."

/-- The diagnosis-approval error text. -/
def diagnosisApprovalMsg (diag : String) : String :=
  "• Diagnosis code " ++ diag ++
    " requires prior approval per section 2, but no approval provided."

/-- The required-fields loop of `evaluate_technical_rules`, threading the
`(errors, error_type)` pair the Python code accumulates. -/
def requiredFieldsCheck (rules : TechnicalRules) (cd : ClaimData)
    (st : List String × String) : List String × String :=
  (rules.required_fields.getD []).foldl
    (fun st field =>
      if fieldMissing cd field then
        (st.1 ++ [requiredFieldMsg field], "Technical error")
      else st)
    st

/-- The paid-amount-threshold check of `evaluate_technical_rules`:
`if paid_amount and paid_amount > threshold`. -/
def thresholdCheck (rules : TechnicalRules) (cd : ClaimData)
    (st : List String × String) : List String × String :=
  match cd.paid_amount_aed with
  | none => st
  | some paid =>
    if paid ≠ 0 ∧ rules.paid_amount_threshold.getD 1000 < paid then
      (st.1 ++ [thresholdMsg paid (rules.paid_amount_threshold.getD 1000)],
        "Technical error")
    else st

/-- The service-approval check of `evaluate_technical_rules`. -/
def serviceApprovalCheck (rules : TechnicalRules) (cd : ClaimData)
    (st : List String × String) : List String × String :=
  match cd.service_code with
  | none => st
  | some service_code =>
    if service_code ∈ rules.approval_required_services.getD [] then
      if optTruthy cd.approval_number then st
      else (st.1 ++ [serviceApprovalMsg service_code], "Technical error")
    else st

/-- The diagnosis-approval loop of `evaluate_technical_rules`: each
comma-split code is stripped; on the first stripped code that requires
approval while none is present, one error is appended and the loop breaks
(`break  # One error is enough`). -/
def diagnosisApprovalLoop (rules : TechnicalRules) (cd : ClaimData) :
    List String → List String × String → List String × String
  | [], st => st
  | d :: rest, st =>
    let diag := strTrim d
    if diag ∈ rules.approval_required_diagnoses.getD [] then
      if optTruthy cd.approval_number then diagnosisApprovalLoop rules cd rest st
      else (st.1 ++ [diagnosisApprovalMsg diag], "Technical error")
    else diagnosisApprovalLoop rules cd rest st

/-- Embeds `RuleEvaluator.evaluate_technical_rules`, with the redis read
abstracted into the `cached` argument.  A claim whose `diagnosis_codes`
value is `None` makes the Python code raise `AttributeError` at
`claim_data.get("diagnosis_codes", "").split(",")` (the key is present, so
the default is not taken); this is modelled by the `.error` branch. -/
def evaluateTechnicalRules (cached : Option TechnicalRules) (cd : ClaimData) :
    Except String TechResult :=
  match cached with
  | none => .ok { valid := true, errors := [], type := "No rules loaded" }
  | some rules =>
    let st := requiredFieldsCheck rules cd ([], "No error")
    let st := thresholdCheck rules cd st
    let st := serviceApprovalCheck rules cd st
    match cd.diagnosis_codes with
    | none => .error "AttributeError: NoneType object has no attribute split"
    | some diagnosis_codes =>
      let st := diagnosisApprovalLoop rules cd (splitString ',' diagnosis_codes) st
      .ok { valid := st.1.isEmpty, errors := st.1, type := st.2 }

/-- The invariant maintained by the `(errors, error_type)` accumulator:
either no error has been appended and the type is still `"No error"`, or
some error has been appended and the type is `"Technical error"`. -/
def StInv (st : List String × String) : Prop :=
  (st.1 = [] ∧ st.2 = "No error") ∨ (st.1 ≠ [] ∧ st.2 = "Technical error")

theorem stInv_append (st : List String × String) (msg : String)
    (_h : StInv st) : StInv (st.1 ++ [msg], "Technical error") := by
  right
  exact ⟨by simp, rfl⟩

theorem requiredFieldsCheck_inv (rules : TechnicalRules) (cd : ClaimData)
    (st : List String × String) (h : StInv st) :
    StInv (requiredFieldsCheck rules cd st) := by
  unfold requiredFieldsCheck
  generalize rules.required_fields.getD [] = fields
  induction fields generalizing st with
  | nil => exact h
  | cons f rest ih =>
    simp only [List.foldl_cons]
    by_cases hf : fieldMissing cd f = true
    · simp only [hf, if_pos rfl]
      exact ih _ (stInv_append st _ h)
    · simp only [Bool.not_eq_true] at hf
      simp only [hf]
      exact ih _ h

theorem thresholdCheck_inv (rules : TechnicalRules) (cd : ClaimData)
    (st : List String × String) (h : StInv st) :
    StInv (thresholdCheck rules cd st) := by
  unfold thresholdCheck
  cases cd.paid_amount_aed with
  | none => exact h
  | some paid =>
    by_cases hc : paid ≠ 0 ∧ rules.paid_amount_threshold.getD 1000 < paid
    · simp only [if_pos hc]
      exact stInv_append st _ h
    · simp only [if_neg hc]
      exact h

theorem serviceApprovalCheck_inv (rules : TechnicalRules) (cd : ClaimData)
    (st : List String × String) (h : StInv st) :
    StInv (serviceApprovalCheck rules cd st) := by
  unfold serviceApprovalCheck
  cases cd.service_code with
  | none => exact h
  | some sc =>
    by_cases hm : sc ∈ rules.approval_required_services.getD []
    · simp only [if_pos hm]
      by_cases ha : optTruthy cd.approval_number = true
      · simp only [ha, if_pos rfl]; exact h
      · simp only [Bool.not_eq_true] at ha
        simp only [ha]
        exact stInv_append st _ h
    · simp only [if_neg hm]; exact h

theorem diagnosisApprovalLoop_inv (rules : TechnicalRules) (cd : ClaimData)
    (l : List String) (st : List String × String) (h : StInv st) :
    StInv (diagnosisApprovalLoop rules cd l st) := by
  induction l generalizing st with
  | nil => exact h
  | cons d rest ih =>
    unfold diagnosisApprovalLoop
    by_cases hm : strTrim d ∈ rules.approval_required_diagnoses.getD []
    · simp only [if_pos hm]
      by_cases ha : optTruthy cd.approval_number = true
      · simp only [ha, if_pos rfl]; exact ih _ h
      · simp only [Bool.not_eq_true] at ha
        simp only [ha]
        exact stInv_append st _ h
    · simp only [if_neg hm]; exact ih _ h

end MedApp


namespace MedApp

theorem requiredFieldsCheck_congr (r1 r2 : TechnicalRules) (cd : ClaimData)
    (h : r1.required_fields = r2.required_fields)
    (st : List String × String) :
    requiredFieldsCheck r1 cd st = requiredFieldsCheck r2 cd st := by
  unfold requiredFieldsCheck
  rw [h]

theorem serviceApprovalCheck_congr (r1 r2 : TechnicalRules) (cd : ClaimData)
    (h : r1.approval_required_services = r2.approval_required_services)
    (st : List String × String) :
    serviceApprovalCheck r1 cd st = serviceApprovalCheck r2 cd st := by
  unfold serviceApprovalCheck
  rw [h]

theorem diagnosisApprovalLoop_congr (r1 r2 : TechnicalRules) (cd : ClaimData)
    (h : r1.approval_required_diagnoses = r2.approval_required_diagnoses)
    (l : List String) (st : List String × String) :
    diagnosisApprovalLoop r1 cd l st = diagnosisApprovalLoop r2 cd l st := by
  induction l generalizing st with
  | nil => rfl
  | cons d rest ih =>
    unfold diagnosisApprovalLoop
    rw [h]
    by_cases hm : strTrim d ∈ r2.approval_required_diagnoses.getD []
    · simp only [if_pos hm]
      by_cases ha : optTruthy cd.approval_number = true
      · simp only [ha, if_pos rfl]; exact ih _
      · simp only [Bool.not_eq_true] at ha
        simp only [ha, if_neg (by decide : ¬ (false = true))]
    · simp only [if_neg hm]; exact ih _

end MedApp

/-- C9: for every cached technical rule set and claim on which the
evaluation returns (rather than raising), the outcome satisfies: `valid`
holds exactly when the error list is empty, and the kind is
`"Technical error"` exactly when the error list is non-empty, `"No error"`
otherwise. -/
theorem evaluate_technical_rules_invariant (rules : MedApp.TechnicalRules)
    (cd : MedApp.ClaimData) (r : MedApp.TechResult)
    (h : MedApp.evaluateTechnicalRules (some rules) cd = .ok r) :
    (r.valid = true ↔ r.errors = []) ∧
    (r.errors = [] → r.type = "No error") ∧
    (r.errors ≠ [] → r.type = "Technical error") := by
  cases hd : cd.diagnosis_codes with
  | none =>
    rw [MedApp.evaluateTechnicalRules] at h
    simp only [hd] at h
    exact Except.noConfusion h
  | some diagnosis_codes =>
    rw [MedApp.evaluateTechnicalRules] at h
    simp only [hd] at h
    have hinv : MedApp.StInv
        (MedApp.diagnosisApprovalLoop rules cd (MedApp.splitString ',' diagnosis_codes)
          (MedApp.serviceApprovalCheck rules cd
            (MedApp.thresholdCheck rules cd
              (MedApp.requiredFieldsCheck rules cd ([], "No error"))))) :=
      MedApp.diagnosisApprovalLoop_inv _ _ _ _
        (MedApp.serviceApprovalCheck_inv _ _ _
          (MedApp.thresholdCheck_inv _ _ _
            (MedApp.requiredFieldsCheck_inv _ _ _ (Or.inl ⟨rfl, rfl⟩))))
    set st := MedApp.diagnosisApprovalLoop rules cd
      (MedApp.splitString ',' diagnosis_codes)
      (MedApp.serviceApprovalCheck rules cd
        (MedApp.thresholdCheck rules cd
          (MedApp.requiredFieldsCheck rules cd ([], "No error")))) with hst
    rw [Except.ok.injEq] at h
    subst h
    rcases hinv with ⟨he, ht⟩ | ⟨he, ht⟩
    · simp [he, ht]
    · simp [ht]
      cases hl : st.1 with
      | nil => exact absurd hl he
      | cons a l => simp [he]

/-- Witness for `evaluate_technical_rules_invariant`: a rule set requiring
`national_id`, evaluated on a claim that lacks it, yields an outcome it
applies to; the extracted facts are that a non-empty error list forces the
kind `"Technical error"` and `valid = false`. -/
theorem evaluate_technical_rules_invariant_witness :
    ({ valid := false, errors := [MedApp.requiredFieldMsg "national_id"],
        type := "Technical error" } : MedApp.TechResult).type
      = "Technical error" :=
  (evaluate_technical_rules_invariant
      { required_fields := some ["national_id"] }
      { claim_id := "CLM001", diagnosis_codes := some "" }
      { valid := false, errors := [MedApp.requiredFieldMsg "national_id"],
        type := "Technical error" }
      (by rfl)).2.2 (by simp)

/-- C10: on a claim whose paid amount is `None` or `0`, the threshold check
appends nothing, and the whole technical evaluation does not depend on the
configured `paid_amount_threshold` at all. -/
theorem threshold_check_skipped_without_paid_amount (cd : MedApp.ClaimData)
    (h : cd.paid_amount_aed = none ∨ cd.paid_amount_aed = some 0) :
    (∀ (rules : MedApp.TechnicalRules) (st : List String × String),
       MedApp.thresholdCheck rules cd st = st) ∧
    (∀ (rules : MedApp.TechnicalRules) (t1 t2 : Option ℚ),
       MedApp.evaluateTechnicalRules
         (some { rules with paid_amount_threshold := t1 }) cd
       = MedApp.evaluateTechnicalRules
         (some { rules with paid_amount_threshold := t2 }) cd) := by
  have hth : ∀ (rules : MedApp.TechnicalRules) (st : List String × String),
      MedApp.thresholdCheck rules cd st = st := by
    intro rules st
    rcases h with h0 | h0 <;>
      simp [MedApp.thresholdCheck, h0]
  refine ⟨hth, ?_⟩
  intro rules t1 t2
  rw [MedApp.evaluateTechnicalRules, MedApp.evaluateTechnicalRules]
  cases hd : cd.diagnosis_codes with
  | none => simp only [hd]
  | some diagnosis_codes =>
    simp only [hd, hth,
      MedApp.requiredFieldsCheck_congr
        { rules with paid_amount_threshold := t1 }
        { rules with paid_amount_threshold := t2 } cd rfl,
      MedApp.serviceApprovalCheck_congr
        { rules with paid_amount_threshold := t1 }
        { rules with paid_amount_threshold := t2 } cd rfl,
      MedApp.diagnosisApprovalLoop_congr
        { rules with paid_amount_threshold := t1 }
        { rules with paid_amount_threshold := t2 } cd rfl]

/-- Witness for `threshold_check_skipped_without_paid_amount`: with a zero
paid amount, thresholds 1 and 1000000 produce identical evaluations. -/
theorem threshold_check_skipped_without_paid_amount_witness :
    MedApp.evaluateTechnicalRules
      (some { paid_amount_threshold := some 1 })
      { claim_id := "CLM002", paid_amount_aed := some 0 }
    = MedApp.evaluateTechnicalRules
      (some { paid_amount_threshold := some 1000000 })
      { claim_id := "CLM002", paid_amount_aed := some 0 } :=
  (threshold_check_skipped_without_paid_amount
    { claim_id := "CLM002", paid_amount_aed := some 0 }
    (Or.inr rfl)).2 {} (some 1) (some 1000000)

namespace MedApp

/-! ## Medical rule evaluation wrapper (`pipeline/rules.py`,
`RuleEvaluator.evaluate_medical_rules`) and the batch orchestrator
(`pipeline/tasks.py`, `process_claim_batch`). -/

/-- Python `sep.join(parts)`. -/
def joinSep (sep : String) : List String → String
  | [] => ""
  | [s] => s
  | s :: r :: rest => s ++ sep ++ joinSep sep (r :: rest)

/-- The cached medical rule set as read back from redis.  The three
key-value shaped fields are modelled after `_parse_key_value_list` has
normalised them (list of `key`/`value` objects, legacy dict, or empty). -/
structure MedicalRules where
  inpatient_services : Option (List String) := none
  outpatient_services : Option (List String) := none
  facility_registry : List (String × String) := []
  diagnosis_service_mappings : List (String × String) := []
  mutually_exclusive : List (String × String) := []
  medical_validation_rules : Option (List String) := none
deriving DecidableEq, Repr

/-- Python's `repr` of a string-to-string dict, as interpolated by
`f"Facility types: \x7bfacility_registry\x7d"`. -/
def pyDictRepr (pairs : List (String × String)) : String :=
  "\x7b" ++
    joinSep ", " (pairs.map (fun p => "'" ++ p.1 ++ "': '" ++ p.2 ++ "'")) ++
    "\x7d"

/-- The rule-bullet list `evaluate_medical_rules` assembles for the LLM:
the free-text rules followed by synthesized sentences for each non-empty
structured field. -/
def buildRulesList (m : MedicalRules) : List String :=
  let rules_list := m.medical_validation_rules.getD []
  let rules_list :=
    if (m.inpatient_services.getD []).isEmpty then rules_list
    else rules_list ++
      ["Inpatient services: " ++ joinSep ", " (m.inpatient_services.getD [])]
  let rules_list :=
    if (m.outpatient_services.getD []).isEmpty then rules_list
    else rules_list ++
      ["Outpatient services: " ++ joinSep ", " (m.outpatient_services.getD [])]
  let rules_list :=
    if m.facility_registry.isEmpty then rules_list
    else rules_list ++ ["Facility types: " ++ pyDictRepr m.facility_registry]
  let rules_list :=
    if m.diagnosis_service_mappings.isEmpty then rules_list
    else rules_list ++ ["Diagnosis-service mappings: " ++
      joinSep "; " (m.diagnosis_service_mappings.map (fun p => p.1 ++ ": " ++ p.2))]
  if m.mutually_exclusive.isEmpty then rules_list
  else rules_list ++ ["Mutually exclusive diagnoses: " ++
    joinSep "; " (m.mutually_exclusive.map
      (fun p => p.1 ++ " cannot coexist with " ++ p.2))]

/-- The LLM endpoint as seen by the pipeline: given the claim data and the
rule-bullet list it either returns a structured response or raises (the
`.error` case carrying the exception's message). -/
def LLMOracle : Type :=
  ClaimData → List String → Except String MedicalAnalysisResponse

/-- Embeds `RuleEvaluator.evaluate_medical_rules`: with no cached medical
rule set the claim is vacuously valid (note the early-return dict carries
`llm_analysis = ""` and omits the other keys); otherwise the rule bullets
are assembled and `LLMService.evaluate_medical_claim` is called. -/
def evaluateMedicalRules (cached : Option MedicalRules) (oracle : LLMOracle)
    (cd : ClaimData) : MedicalResult :=
  match cached with
  | none => { valid := true, errors := [], type := "No error", llm_analysis := "" }
  | some m => evaluateMedicalClaim (oracle cd (buildRulesList m))

/-- The marker string `process_claim_batch` compares `llm_analysis`
against before falling back to a direct LLM call. -/
def pendingMarker : String := "Medical rules evaluation pending LLM integration"

/-- Step 2 of the per-claim loop in `process_claim_batch`: evaluate the
medical rules, then (legacy branch) if the result carries the pending
marker, re-run the LLM directly on the cached `medical_validation_rules`
list. -/
def medicalStep (cached : Option MedicalRules) (oracle : LLMOracle)
    (cd : ClaimData) : MedicalResult :=
  let medical_result := evaluateMedicalRules cached oracle cd
  if medical_result.llm_analysis = pendingMarker then
    let medical_rules := match cached with
      | some m => m.medical_validation_rules.getD []
      | none => []
    evaluateMedicalClaim (oracle cd medical_rules)
  else medical_result

/-- Python `str.lower()`. -/
def strLower (s : String) : String := String.mk (s.data.map Char.toLower)

/-- The keyword-to-advice mapping of `_generate_recommendations`
(first matching keyword wins, case-insensitively). -/
def recommendationFor (error : String) : String :=
  if strContains (strLower error) "threshold" then
    "Review payment amount against policy limits"
  else if strContains (strLower error) "required" then
    "Complete missing required fields"
  else if strContains (strLower error) "approval" then
    "Verify approval number format and validity"
  else if strContains (strLower error) "medical" then
    "Consult medical guidelines for service necessity"
  else
    "Manual review required"

/-- Embeds `_generate_recommendations`: one recommendation per error,
deduplicated (`list(set(...))` — whose iteration order Python leaves
unspecified; modelled as keeping first occurrences), joined by `"; "`. -/
def generateRecommendations (errors : List String) : String :=
  joinSep "; " ((errors.map recommendationFor).eraseDups)

/-- A `MasterTable` row (`shared/models.py`), restricted to the columns the
pipeline reads and writes. -/
structure ClaimRecord where
  claim_id : String
  encounter_type : Option String := none
  service_date : Option String := none
  national_id : Option String := none
  member_id : Option String := none
  facility_id : Option String := none
  unique_id : Option String := none
  diagnosis_codes : Option String := none
  service_code : Option String := none
  paid_amount_aed : Option ℚ := none
  approval_number : Option String := none
  status : Option String := none
  error_type : Option String := none
  error_explanation : Option String := none
  recommended_action : Option String := none
deriving DecidableEq, Repr

/-- The `claim_data` dict built from a row at the top of the per-claim
loop (the `service_date` is kept as its rendered string). -/
def toClaimData (c : ClaimRecord) : ClaimData where
  claim_id := c.claim_id
  encounter_type := c.encounter_type
  service_date := c.service_date
  national_id := c.national_id
  member_id := c.member_id
  facility_id := c.facility_id
  unique_id := c.unique_id
  diagnosis_codes := c.diagnosis_codes
  service_code := c.service_code
  paid_amount_aed := c.paid_amount_aed
  approval_number := c.approval_number

/-- A `MetricsTable` row (`shared/models.py`). -/
structure MetricsRow where
  error_type : String
  claim_count : ℕ
  total_paid_amount : ℚ
  tenant_id : String
deriving DecidableEq, Repr

/-- `db.query(MetricsTable).filter(error_type == et, tenant_id == t).first()`:
the first matching row in store order. -/
def findMetric : List MetricsRow → String → String → Option MetricsRow
  | [], _, _ => none
  | m :: rest, tenant, error_type =>
    if m.error_type == error_type && m.tenant_id == tenant then some m
    else findMetric rest tenant error_type

/-- In-place increment of the first matching aggregate row
(`existing_metric.claim_count += count; ... += total_paid`). -/
def bumpFirstMetric (tenant error_type : String) (count : ℕ) (paid : ℚ) :
    List MetricsRow → List MetricsRow
  | [] => []
  | m :: rest =>
    if m.error_type == error_type && m.tenant_id == tenant then
      { m with claim_count := m.claim_count + count,
               total_paid_amount := m.total_paid_amount + paid } :: rest
    else m :: bumpFirstMetric tenant error_type count paid rest

/-- One iteration of the metrics loop at the end of `process_claim_batch`:
increment the existing aggregate for this tenant and error type, or insert
a fresh row. -/
def upsertMetric (table : List MetricsRow) (tenant error_type : String)
    (count : ℕ) (paid : ℚ) : List MetricsRow :=
  match findMetric table tenant error_type with
  | some _ => bumpFirstMetric tenant error_type count paid table
  | none => table ++ [{ error_type := error_type, claim_count := count,
                        total_paid_amount := paid, tenant_id := tenant }]

end MedApp

namespace MedApp

/-- The `error_counts` dict initialised at the top of
`process_claim_batch`, with its four fixed keys. -/
structure ErrorCounts where
  no_error : ℕ := 0
  medical_error : ℕ := 0
  technical_error : ℕ := 0
  both : ℕ := 0
deriving DecidableEq, Repr

/-- The `total_paid_by_error` dict, same four keys. -/
structure PaidTotals where
  no_error : ℚ := 0
  medical_error : ℚ := 0
  technical_error : ℚ := 0
  both : ℚ := 0
deriving DecidableEq, Repr

/-- The keys present in `error_counts` / `total_paid_by_error`.  Indexing
either dict with any other string raises `KeyError`. -/
def counterKeys : List String := ["No error", "Medical error", "Technical error", "both"]

/-- `error_counts[key] += n` for a key known to be present. -/
def bumpCount (ec : ErrorCounts) (key : String) (n : ℕ) : ErrorCounts :=
  if key = "No error" then { ec with no_error := ec.no_error + n }
  else if key = "Medical error" then { ec with medical_error := ec.medical_error + n }
  else if key = "Technical error" then { ec with technical_error := ec.technical_error + n }
  else { ec with both := ec.both + n }

/-- `total_paid_by_error[key] += q` for a key known to be present. -/
def bumpPaid (tp : PaidTotals) (key : String) (q : ℚ) : PaidTotals :=
  if key = "No error" then { tp with no_error := tp.no_error + q }
  else if key = "Medical error" then { tp with medical_error := tp.medical_error + q }
  else if key = "Technical error" then { tp with technical_error := tp.technical_error + q }
  else { tp with both := tp.both + q }

/-- The observable effect of one iteration of the per-claim `try` block of
`process_claim_batch`: the (possibly mutated) master row, the refined rows
added to the session, the error-counts key incremented (`none` when an
exception cut the iteration short before the counter update), the paid
amount added, and the `processed_count` increment. -/
structure PerClaimEffect where
  record : ClaimRecord
  refined : List ClaimRecord
  counted : Option String
  paid_add : ℚ
  processed : ℕ
deriving DecidableEq, Repr

/-- One iteration of the per-claim loop of `process_claim_batch`.  Two
exception sites exist, both caught by the claim-level `except`:

* `evaluate_technical_rules` raises (`diagnosis_codes` is `None`) — the
  iteration ends before any mutation, the row is left untouched;
* `error_counts[combined_type] += 1` raises `KeyError` when the combined
  type is not one of the four dict keys (e.g. `"No rules loaded"`) — by
  then the row has already been mutated and the refined row added, and
  those session changes stand. -/
def perClaimStep (tech : Option TechnicalRules) (med : Option MedicalRules)
    (oracle : LLMOracle) (c : ClaimRecord) : PerClaimEffect :=
  let cd := toClaimData c
  match evaluateTechnicalRules tech cd with
  | .error _ => { record := c, refined := [], counted := none, paid_add := 0, processed := 0 }
  | .ok technical_result =>
    let medical_result := medicalStep med oracle cd
    let combined_errors := technical_result.errors ++ medical_result.errors
    let combined_type := combineErrorTypes technical_result.type medical_result.type
    let c' := { c with
      status := some "Validated",
      error_type := some combined_type,
      error_explanation :=
        some (if combined_errors.isEmpty then "" else joinSep "; " combined_errors),
      recommended_action := some (generateRecommendations combined_errors) }
    if combined_type ∈ counterKeys then
      { record := c', refined := [c'], counted := some combined_type,
        paid_add := match c.paid_amount_aed with
          | some q => if q ≠ 0 then q else 0
          | none => 0,
        processed := 1 }
    else
      { record := c', refined := [c'], counted := none, paid_add := 0, processed := 0 }

/-- The loop state accumulated over the claims of a batch. -/
structure RunAcc where
  master : List ClaimRecord
  refined : List ClaimRecord
  counts : ErrorCounts
  paid : PaidTotals
  processed : ℕ
deriving DecidableEq, Repr

/-- The per-claim loop of `process_claim_batch` over the master table:
rows whose `claim_id` is in the requested batch get their per-claim effect
applied; the others pass through untouched (the SQL `in_` filter). -/
def runClaims (tech : Option TechnicalRules) (med : Option MedicalRules)
    (oracle : LLMOracle) (claim_ids : List String) :
    List ClaimRecord → RunAcc
  | [] => { master := [], refined := [], counts := {}, paid := {}, processed := 0 }
  | c :: rest =>
    let acc := runClaims tech med oracle claim_ids rest
    if c.claim_id ∈ claim_ids then
      let eff := perClaimStep tech med oracle c
      { master := eff.record :: acc.master,
        refined := eff.refined ++ acc.refined,
        counts := match eff.counted with
          | some key => bumpCount acc.counts key 1
          | none => acc.counts,
        paid := match eff.counted with
          | some key => bumpPaid acc.paid key eff.paid_add
          | none => acc.paid,
        processed := eff.processed + acc.processed }
    else
      { acc with master := c :: acc.master }

/-- The three persisted tables the pipeline touches. -/
structure DB where
  master : List ClaimRecord := []
  refined : List ClaimRecord := []
  metrics : List MetricsRow := []
deriving DecidableEq, Repr

/-- The dict returned by `process_claim_batch`. -/
structure BatchSummary where
  processed_count : ℕ
  error_counts : ErrorCounts
  total_paid_by_error : PaidTotals
deriving DecidableEq, Repr

/-- The metrics loop at the end of `process_claim_batch`: one upsert per
dict key with a positive count, in dict insertion order. -/
def metricsUpsertLoop (table : List MetricsRow) (tenant : String)
    (ec : ErrorCounts) (tp : PaidTotals) : List MetricsRow :=
  let t := if 0 < ec.no_error then
    upsertMetric table tenant "No error" ec.no_error tp.no_error else table
  let t := if 0 < ec.medical_error then
    upsertMetric t tenant "Medical error" ec.medical_error tp.medical_error else t
  let t := if 0 < ec.technical_error then
    upsertMetric t tenant "Technical error" ec.technical_error tp.technical_error else t
  if 0 < ec.both then
    upsertMetric t tenant "both" ec.both tp.both else t

/-- Embeds `process_claim_batch(claim_ids)`.  `commit_ok` stands for the
outcome of the final `db.commit()`: on failure the outer `except` rolls
back every write of the batch and re-raises, so the returned store is the
untouched input. -/
def processClaimBatch (tech : Option TechnicalRules) (med : Option MedicalRules)
    (oracle : LLMOracle) (tenant : String) (db : DB) (claim_ids : List String)
    (commit_ok : Bool) : Except String BatchSummary × DB :=
  let acc := runClaims tech med oracle claim_ids db.master
  let new_metrics := metricsUpsertLoop db.metrics tenant acc.counts acc.paid
  if commit_ok then
    (.ok { processed_count := acc.processed, error_counts := acc.counts,
           total_paid_by_error := acc.paid },
     { master := acc.master, refined := db.refined ++ acc.refined,
       metrics := new_metrics })
  else
    (.error "Pipeline processing failed", db)

theorem runClaims_master (tech : Option TechnicalRules) (med : Option MedicalRules)
    (oracle : LLMOracle) (claim_ids : List String) (l : List ClaimRecord) :
    (runClaims tech med oracle claim_ids l).master
      = l.map (fun c => if c.claim_id ∈ claim_ids
          then (perClaimStep tech med oracle c).record else c) := by
  induction l with
  | nil => rfl
  | cons c rest ih =>
    rw [runClaims]
    by_cases hc : c.claim_id ∈ claim_ids
    · simp only [if_pos hc, List.map_cons, ih]
    · simp only [if_neg hc, List.map_cons, ih]

end MedApp

namespace MedApp

theorem findMetric_bumpFirstMetric (tenant et : String) (count : ℕ) (paid : ℚ)
    (table : List MetricsRow) (m : MetricsRow)
    (hm : findMetric table tenant et = some m) :
    findMetric (bumpFirstMetric tenant et count paid table) tenant et
      = some { m with claim_count := m.claim_count + count,
                      total_paid_amount := m.total_paid_amount + paid } := by
  induction table with
  | nil => exact Option.noConfusion hm
  | cons a rest ih =>
    rw [findMetric] at hm
    rw [bumpFirstMetric]
    by_cases hp : (a.error_type == et && a.tenant_id == tenant) = true
    · rw [if_pos hp] at hm
      injection hm with hm'
      subst hm'
      rw [if_pos hp, findMetric, if_pos hp]
    · rw [if_neg hp] at hm
      rw [if_neg hp, findMetric, if_neg hp]
      exact ih hm

end MedApp

/-- C7: the metrics upsert is additive — when an aggregate row for this
tenant and error kind already exists, its claim count and paid total are
incremented by the batch's contribution, never replaced. -/
theorem upsert_metric_additive (table : List MedApp.MetricsRow)
    (tenant et : String) (m : MedApp.MetricsRow)
    (hm : MedApp.findMetric table tenant et = some m)
    (count : ℕ) (paid : ℚ) :
    MedApp.findMetric (MedApp.upsertMetric table tenant et count paid) tenant et
      = some { m with claim_count := m.claim_count + count,
                      total_paid_amount := m.total_paid_amount + paid } := by
  rw [MedApp.upsertMetric, hm]
  exact MedApp.findMetric_bumpFirstMetric tenant et count paid table m hm

/-- Witness for `upsert_metric_additive`: an existing aggregate with claim
count 3 receiving a batch contribution of 5 ends at claim count 8 (and the
paid totals add up likewise). -/
theorem upsert_metric_additive_witness :
    MedApp.findMetric
      (MedApp.upsertMetric
        [{ error_type := "Technical error", claim_count := 3,
           total_paid_amount := 100, tenant_id := "default" }]
        "default" "Technical error" 5 50)
      "default" "Technical error"
    = some { error_type := "Technical error", claim_count := 8,
             total_paid_amount := 150, tenant_id := "default" } := by
  have h := upsert_metric_additive
    [{ error_type := "Technical error", claim_count := 3,
       total_paid_amount := 100, tenant_id := "default" }]
    "default" "Technical error"
    { error_type := "Technical error", claim_count := 3,
      total_paid_amount := 100, tenant_id := "default" }
    (by rfl) 5 50
  rw [h]
  norm_num

/-- C6: for every claim whose per-claim processing reaches the write-back
step (the technical evaluation returned), the `error_explanation` written
onto the record is the `"; "`-joining of the technical error list followed
by the medical error list, and that combined sequence's length is the sum
of the two lists' lengths. -/
theorem error_explanation_concatenated (tech : Option MedApp.TechnicalRules)
    (med : Option MedApp.MedicalRules) (oracle : MedApp.LLMOracle)
    (c : MedApp.ClaimRecord) (tr : MedApp.TechResult)
    (h : MedApp.evaluateTechnicalRules tech (MedApp.toClaimData c) = .ok tr) :
    ((MedApp.perClaimStep tech med oracle c).record).error_explanation
      = some (if (tr.errors ++ (MedApp.medicalStep med oracle (MedApp.toClaimData c)).errors).isEmpty
              then ""
              else MedApp.joinSep "; "
                (tr.errors ++ (MedApp.medicalStep med oracle (MedApp.toClaimData c)).errors)) ∧
    (tr.errors ++ (MedApp.medicalStep med oracle (MedApp.toClaimData c)).errors).length
      = tr.errors.length
        + (MedApp.medicalStep med oracle (MedApp.toClaimData c)).errors.length := by
  constructor
  · rw [MedApp.perClaimStep]
    simp only [h]
    by_cases hk : MedApp.combineErrorTypes tr.type
        (MedApp.medicalStep med oracle (MedApp.toClaimData c)).type ∈ MedApp.counterKeys
    · simp [hk]
    · simp [hk]
  · exact List.length_append _ _

/-- Witness for `error_explanation_concatenated`: a claim missing the
required `member_id`, with no medical rules cached, ends with exactly the
one technical error as its written explanation. -/
theorem error_explanation_concatenated_witness :
    ((MedApp.perClaimStep (some { required_fields := some ["member_id"] }) none
        (fun _ _ => Except.error "down")
        { claim_id := "CLM200", diagnosis_codes := some "" }).record).error_explanation
      = some (MedApp.requiredFieldMsg "member_id") :=
  ((error_explanation_concatenated (some { required_fields := some ["member_id"] })
      none (fun _ _ => Except.error "down")
      { claim_id := "CLM200", diagnosis_codes := some "" }
      { valid := false, errors := [MedApp.requiredFieldMsg "member_id"],
        type := "Technical error" }
      (by rfl)).1).trans (by decide)

/-- C2 (amended): per-claim failure isolation as the code implements it.
With a successful final commit the batch always completes, every selected
row ending at its per-claim effect; a row whose processing raised inside
the evaluation step (before any mutation) passes through unchanged; and a
failing final persistence step rolls the whole batch back, returning the
untouched store.  (A per-claim exception raised after the write-back step
— the `KeyError` of `batch_keyerror_leaves_mutated_status` — leaves the
already-applied mutation in place, which is why the original claim's
"retains its prior status" fails.) -/
theorem batch_partial_failure_semantics (tech : Option MedApp.TechnicalRules)
    (med : Option MedApp.MedicalRules) (oracle : MedApp.LLMOracle)
    (tenant : String) (db : MedApp.DB) (claim_ids : List String) :
    (∃ s db', MedApp.processClaimBatch tech med oracle tenant db claim_ids true
        = (.ok s, db') ∧
       db'.master = db.master.map (fun c => if c.claim_id ∈ claim_ids
         then (MedApp.perClaimStep tech med oracle c).record else c)) ∧
    (∀ (c : MedApp.ClaimRecord) (e : String),
       MedApp.evaluateTechnicalRules tech (MedApp.toClaimData c) = .error e →
       (MedApp.perClaimStep tech med oracle c).record = c) ∧
    MedApp.processClaimBatch tech med oracle tenant db claim_ids false
      = (.error "Pipeline processing failed", db) := by
  refine ⟨⟨_, _, rfl, ?_⟩, ?_, rfl⟩
  · exact MedApp.runClaims_master tech med oracle claim_ids db.master
  · intro c e he
    rw [MedApp.perClaimStep]
    simp only [he]

/-- Witness for `batch_partial_failure_semantics`: a claim whose
`diagnosis_codes` is `None` makes the technical evaluation raise, and the
row passes through the batch unchanged. -/
theorem batch_partial_failure_semantics_witness :
    (MedApp.perClaimStep (some {}) none (fun _ _ => Except.error "down")
       { claim_id := "CLM300" }).record = { claim_id := "CLM300" } :=
  (batch_partial_failure_semantics (some {}) none (fun _ _ => Except.error "down")
    "default" {} []).2.1
    { claim_id := "CLM300" }
    "AttributeError: NoneType object has no attribute split" (by rfl)

/-- C2 (counterexample to the claim as stated): with no technical rule set
cached, the combined kind is `"No rules loaded"`, so the per-claim metrics
update `error_counts[combined_type] += 1` raises `KeyError` — an exception
while processing the claim.  The batch continues and commits, but the
claim does NOT retain its prior status: it enters as `"Not validated"` and
is persisted as `"Validated"`, while `processed_count = 0` records that
its iteration was cut short by the exception. -/
theorem batch_keyerror_leaves_mutated_status :
    (MedApp.processClaimBatch none none (fun _ _ => Except.error "down") "default"
        { master := [{ claim_id := "CLM100", status := some "Not validated" }] }
        ["CLM100"] true).2.master.map (fun c => c.status) = [some "Validated"] ∧
    (MedApp.processClaimBatch none none (fun _ _ => Except.error "down") "default"
        { master := [{ claim_id := "CLM100", status := some "Not validated" }] }
        ["CLM100"] true).1
      = Except.ok { processed_count := 0, error_counts := {},
                    total_paid_by_error := {} } := by
  exact ⟨rfl, rfl⟩

namespace MedApp

/-! ## Legacy `error_explanation` decoding (`claims/services.py`,
`_parse_error_explanation`; the same function is repeated verbatim inside
`validation/router.py`).

The decoder first tries `json.loads`; Python's `json` module is an
external dependency, modelled here by a recursive-descent parser for the
JSON fragment these strings can live in: arrays and strings (with the
standard escapes); anything else — including the newline-joined bulleted
legacy texts, which start with `•` — fails to parse, exactly as
`json.loads` raises `JSONDecodeError` on them. -/

/-- A decoded JSON value of the fragment used here. -/
inductive PyJson where
  | str (s : String)
  | arr (xs : List PyJson)

/-- Skip JSON whitespace. -/
def skipWs : List Char → List Char
  | [] => []
  | c :: cs =>
    if c == ' ' || c == '\t' || c == '\n' || c == '\r' then skipWs cs
    else c :: cs

/-- Decode one JSON string escape code (the codes the stored encodings can
contain). -/
def unescapeChar : Char → Option Char
  | 'n' => some '\n'
  | 't' => some '\t'
  | 'r' => some '\r'
  | '"' => some '"'
  | '\\' => some '\\'
  | '/' => some '/'
  | _ => none

/-- Parse the body of a JSON string literal (after the opening quote), up
to and including the closing quote; returns the decoded characters and the
remaining input. -/
def parseStrBody : List Char → Option (List Char × List Char)
  | [] => none
  | '"' :: cs => some ([], cs)
  | '\\' :: [] => none
  | '\\' :: e :: cs =>
    match unescapeChar e with
    | some u =>
      match parseStrBody cs with
      | some (l, r) => some (u :: l, r)
      | none => none
    | none => none
  | c :: cs =>
    match parseStrBody cs with
    | some (l, r) => some (c :: l, r)
    | none => none

mutual

/-- Parse one JSON value (string or array) of the modelled fragment.  The
fuel only bounds nesting/sequencing depth; the top-level call supplies
more than the input length, which is always enough. -/
def parseJsonVal : ℕ → List Char → Option (PyJson × List Char)
  | 0, _ => none
  | fuel + 1, cs =>
    match skipWs cs with
    | [] => none
    | c :: cs2 =>
      if c == '"' then
        match parseStrBody cs2 with
        | some (l, r) => some (.str (String.mk l), r)
        | none => none
      else if c == '[' then
        match skipWs cs2 with
        | ']' :: r => some (.arr [], r)
        | cs3 =>
          match parseJsonItems fuel cs3 with
          | some (vs, r) => some (.arr vs, r)
          | none => none
      else none

/-- Parse the comma-separated items of a non-empty JSON array, up to and
including the closing bracket. -/
def parseJsonItems : ℕ → List Char → Option (List PyJson × List Char)
  | 0, _ => none
  | fuel + 1, cs =>
    match parseJsonVal fuel cs with
    | none => none
    | some (v, r) =>
      match skipWs r with
      | ',' :: r2 =>
        match parseJsonItems fuel r2 with
        | some (vs, r3) => some (v :: vs, r3)
        | none => none
      | ']' :: r2 => some ([v], r2)
      | _ => none

end

/-- The model of `json.loads` on the fragment: parse one value and require
only whitespace to remain. -/
def jsonLoads (s : String) : Option PyJson :=
  match parseJsonVal (s.data.length + 1) s.data with
  | some (v, rest) => if (skipWs rest).isEmpty then some v else none
  | none => none

/-- Python `str.lstrip("• ")`: drop every leading `•` or space. -/
def lstripBulletSpace (s : String) : String :=
  String.mk (s.data.dropWhile (fun c => c == '•' || c == ' '))

/-- Python truthiness of `line.strip()`: false exactly when every
character is whitespace. -/
def isBlank (s : String) : Bool :=
  s.data.all Char.isWhitespace

mutual

/-- Python `str(value)` on a decoded JSON value (only reached for
non-string array elements). -/
def pyToString : PyJson → String
  | .str s => s
  | .arr xs => "[" ++ pyReprItems xs ++ "]"

/-- Python `repr` of an array element. -/
def pyReprVal : PyJson → String
  | .str s => "'" ++ s ++ "'"
  | .arr xs => "[" ++ pyReprItems xs ++ "]"

/-- Python `repr` of a list body. -/
def pyReprItems : List PyJson → String
  | [] => ""
  | [v] => pyReprVal v
  | v :: w :: rest => pyReprVal v ++ ", " ++ pyReprItems (w :: rest)

end

/-- Embeds `_parse_error_explanation(error_text)`: empty text decodes to
`[]`; JSON lists map each string element through `lstrip("• ")`; other
successfully parsed JSON yields the raw text as a one-element list; on a
parse failure the text is split on newlines (dropping blank lines) with
each line bullet-stripped, or taken whole (bullet-stripped) when it has no
newline. -/
def parseErrorExplanation (error_text : String) : List String :=
  if error_text = "" then []
  else
    match jsonLoads error_text with
    | some (.arr parsed) =>
      parsed.map (fun e =>
        match e with
        | .str s => lstripBulletSpace s
        | other => pyToString other)
    | some _ => [error_text]
    | none =>
      if '\n' ∈ error_text.data then
        ((splitString '\n' error_text).filter (fun line => !(isBlank line))).map
          lstripBulletSpace
      else
        [lstripBulletSpace error_text]

/-- The legacy storage encoding named by the specification: the bulleted
error strings joined by newlines (`"\n".join(errors)`). -/
def newlineJoin (errors : List String) : String :=
  joinSep "\n" errors

/-- JSON string-character escaping (the escapes `json.dumps` would emit
for the characters that need one; other characters are kept as-is). -/
def escapeJsonChar (c : Char) : List Char :=
  if c == '"' then ['\\', '"']
  else if c == '\\' then ['\\', '\\']
  else if c == '\n' then ['\\', 'n']
  else if c == '\t' then ['\\', 't']
  else if c == '\r' then ['\\', 'r']
  else [c]

/-- A JSON string literal for `s`. -/
def jsonEncodeStr (s : String) : String :=
  String.mk ('"' :: ((s.data.map escapeJsonChar).flatten ++ ['"']))

/-- The JSON-array encoding of a list of strings named by the
specification. -/
def jsonEncodeArr (errors : List String) : String :=
  "[" ++ joinSep "," (errors.map jsonEncodeStr) ++ "]"

end MedApp

/-- C8 (counterexample to the claim as stated): for the single bulleted
error string `"• a\nb"` — which embeds a newline — the newline-joined
legacy text decodes to the two bare strings `["a", "b"]`, while the
JSON-array encoding of the same list decodes to the one bare string
`["a\nb"]`: the two decodings disagree. -/
theorem parse_error_explanation_newline_vs_json :
    MedApp.parseErrorExplanation (MedApp.newlineJoin ["• a\nb"]) = ["a", "b"] ∧
    MedApp.parseErrorExplanation (MedApp.jsonEncodeArr ["• a\nb"]) = ["a\nb"] ∧
    (["a", "b"] : List String) ≠ ["a\nb"] := by
  refine ⟨rfl, rfl, by decide⟩

namespace MedApp

theorem stringMk_data (s : String) : String.mk s.data = s := rfl

theorem data_string_append (s t : String) : (s ++ t).data = s.data ++ t.data :=
  String.data_append s t

theorem skipWs_cons_of_not_ws (c : Char) (cs : List Char)
    (h : (c == ' ' || c == '\t' || c == '\n' || c == '\r') = false) :
    skipWs (c :: cs) = c :: cs := by
  rw [skipWs, h]
  rfl

theorem splitChar_ne_nil (sep : Char) (cs : List Char) :
    splitChar sep cs ≠ [] := by
  cases cs with
  | nil => simp [splitChar]
  | cons c cs' =>
    rw [splitChar]
    cases h : splitChar sep cs' with
    | nil => simp
    | cons g gs =>
      by_cases hc : (c == sep) = true <;> simp [hc]

theorem splitChar_no_sep (sep : Char) (cs : List Char) (h : sep ∉ cs) :
    splitChar sep cs = [cs] := by
  induction cs with
  | nil => rfl
  | cons c cs' ih =>
    have hc : ¬ c = sep := fun hh => h (hh ▸ List.mem_cons_self c cs')
    have hcs : sep ∉ cs' := fun hh => h (List.mem_cons_of_mem c hh)
    rw [splitChar, ih hcs]
    simp [beq_eq_false_iff_ne.mpr hc]

theorem splitChar_append_sep (sep : Char) (cs ds : List Char) (h : sep ∉ cs) :
    splitChar sep (cs ++ sep :: ds) = cs :: splitChar sep ds := by
  induction cs with
  | nil =>
    simp only [List.nil_append]
    rw [splitChar]
    cases hs : splitChar sep ds with
    | nil => exact absurd hs (splitChar_ne_nil sep ds)
    | cons g gs => simp
  | cons c cs' ih =>
    have hc : ¬ c = sep := fun hh => h (hh ▸ List.mem_cons_self c cs')
    have hcs : sep ∉ cs' := fun hh => h (List.mem_cons_of_mem c hh)
    simp only [List.cons_append]
    rw [splitChar, ih hcs]
    simp [beq_eq_false_iff_ne.mpr hc]

end MedApp

namespace MedApp

theorem parseStrBody_escape (e u : Char) (hu : unescapeChar e = some u)
    (cs : List Char) :
    parseStrBody ('\\' :: e :: cs)
      = match parseStrBody cs with
        | some (l, r) => some (u :: l, r)
        | none => none := by
  conv_lhs => rw [parseStrBody]
  rw [hu]

theorem parseStrBody_plain (c : Char) (h1 : ¬ c = '"') (h2 : ¬ c = '\\')
    (cs : List Char) :
    parseStrBody (c :: cs)
      = match parseStrBody cs with
        | some (l, r) => some (c :: l, r)
        | none => none := by
  rw [parseStrBody.eq_def]
  split <;> simp_all

theorem parseStrBody_encoded (l : List Char) (rest : List Char) :
    parseStrBody ((l.map escapeJsonChar).flatten ++ '"' :: rest)
      = some (l, rest) := by
  induction l with
  | nil => rfl
  | cons c l' ih =>
    simp only [List.map_cons, List.flatten_cons, List.append_assoc]
    by_cases h1 : c = '"'
    · subst h1
      rw [show escapeJsonChar '"' = ['\\', '"'] from rfl]
      rw [List.cons_append, List.cons_append, List.nil_append,
        parseStrBody_escape '"' '"' rfl, ih]
    · by_cases h2 : c = '\\'
      · subst h2
        rw [show escapeJsonChar '\\' = ['\\', '\\'] from rfl]
        rw [List.cons_append, List.cons_append, List.nil_append,
          parseStrBody_escape '\\' '\\' rfl, ih]
      · by_cases h3 : c = '\n'
        · subst h3
          rw [show escapeJsonChar '\n' = ['\\', 'n'] from rfl]
          rw [List.cons_append, List.cons_append, List.nil_append,
            parseStrBody_escape 'n' '\n' rfl, ih]
        · by_cases h4 : c = '\t'
          · subst h4
            rw [show escapeJsonChar '\t' = ['\\', 't'] from rfl]
            rw [List.cons_append, List.cons_append, List.nil_append,
              parseStrBody_escape 't' '\t' rfl, ih]
          · by_cases h5 : c = '\r'
            · subst h5
              rw [show escapeJsonChar '\r' = ['\\', 'r'] from rfl]
              rw [List.cons_append, List.cons_append, List.nil_append,
                parseStrBody_escape 'r' '\r' rfl, ih]
            · have he : escapeJsonChar c = [c] := by
                rw [escapeJsonChar]
                simp [beq_eq_false_iff_ne.mpr h1, beq_eq_false_iff_ne.mpr h2,
                  beq_eq_false_iff_ne.mpr h3, beq_eq_false_iff_ne.mpr h4,
                  beq_eq_false_iff_ne.mpr h5]
              rw [he, List.cons_append, List.nil_append,
                parseStrBody_plain c h1 h2, ih]

end MedApp

namespace MedApp

/-- The character stream of one encoded JSON string literal. -/
def encodedStrChars (s : String) : List Char :=
  '"' :: ((s.data.map escapeJsonChar).flatten ++ ['"'])

/-- The character stream of the comma-joined encoded literals. -/
def encodedBodyChars : List String → List Char
  | [] => []
  | [x] => encodedStrChars x
  | x :: y :: rest => encodedStrChars x ++ ',' :: encodedBodyChars (y :: rest)

theorem data_jsonEncodeStr (s : String) :
    (jsonEncodeStr s).data = encodedStrChars s := rfl

theorem data_joinSep_encode (xs : List String) :
    (joinSep "," (xs.map jsonEncodeStr)).data = encodedBodyChars xs := by
  induction xs with
  | nil => rfl
  | cons x xs ih =>
    cases xs with
    | nil => rfl
    | cons y rest =>
      rw [show (x :: y :: rest).map jsonEncodeStr
          = jsonEncodeStr x :: (y :: rest).map jsonEncodeStr from rfl]
      rw [show joinSep "," (jsonEncodeStr x :: (y :: rest).map jsonEncodeStr)
          = jsonEncodeStr x ++ "," ++ joinSep "," ((y :: rest).map jsonEncodeStr) by
        cases rest <;> rfl]
      rw [data_string_append, data_string_append, ih, data_jsonEncodeStr]
      rw [show ("," : String).data = [','] from rfl]
      rw [List.append_assoc, List.singleton_append]
      rfl

theorem data_jsonEncodeArr (xs : List String) :
    (jsonEncodeArr xs).data = '[' :: (encodedBodyChars xs ++ [']']) := by
  rw [jsonEncodeArr, data_string_append, data_string_append, data_joinSep_encode]
  rfl

theorem encodedBodyChars_length (x : String) (xs : List String) :
    xs.length ≤ (encodedBodyChars (x :: xs)).length := by
  induction xs generalizing x with
  | nil => simp
  | cons y ys ih =>
    rw [show encodedBodyChars (x :: y :: ys)
        = encodedStrChars x ++ ',' :: encodedBodyChars (y :: ys) from rfl]
    have := ih y
    simp only [List.length_append, List.length_cons]
    omega

theorem parseJsonVal_str (g : ℕ) (s : String) (rest : List Char) :
    parseJsonVal (g + 1) (encodedStrChars s ++ rest) = some (.str s, rest) := by
  rw [show encodedStrChars s ++ rest
      = '"' :: ((s.data.map escapeJsonChar).flatten ++ '"' :: rest) by
    simp [encodedStrChars, List.append_assoc]]
  rw [parseJsonVal]
  rw [skipWs_cons_of_not_ws '"' _ (by decide)]
  simp only [parseStrBody_encoded, stringMk_data]
  rfl

end MedApp

namespace MedApp

theorem parseJsonItems_encoded (xs : List String) :
    ∀ (x : String) (rest : List Char) (g : ℕ), xs.length + 2 ≤ g + 1 + 1 →
    parseJsonItems (g + 1 + 1) (encodedBodyChars (x :: xs) ++ ']' :: rest)
      = some ((x :: xs).map PyJson.str, rest) := by
  induction xs with
  | nil =>
    intro x rest g _
    rw [show encodedBodyChars [x] = encodedStrChars x from rfl]
    rw [parseJsonItems]
    rw [parseJsonVal_str g x (']' :: rest)]
    simp only [skipWs_cons_of_not_ws ']' rest (by decide), List.map_cons,
      List.map_nil]
  | cons y ys ih =>
    intro x rest g hf
    have hlen : ys.length + 1 ≤ g := by
      simpa using hf
    obtain ⟨g2, rfl⟩ : ∃ g2, g = g2 + 1 := ⟨g - 1, by omega⟩
    rw [show encodedBodyChars (x :: y :: ys)
        = encodedStrChars x ++ ',' :: encodedBodyChars (y :: ys) from rfl]
    rw [parseJsonItems]
    rw [List.append_assoc, List.cons_append]
    rw [parseJsonVal_str (g2 + 1) x
      (',' :: (encodedBodyChars (y :: ys) ++ ']' :: rest))]
    simp only [skipWs_cons_of_not_ws ',' _ (by decide)]
    rw [ih y rest g2 (by omega)]
    rfl

end MedApp

namespace MedApp

theorem parseJsonVal_arr (x : String) (xs' : List String) (rest : List Char)
    (g : ℕ) (hg : xs'.length + 2 ≤ g + 1 + 1) :
    parseJsonVal (g + 1 + 1 + 1)
      ('[' :: (encodedBodyChars (x :: xs') ++ ']' :: rest))
      = some (.arr ((x :: xs').map PyJson.str), rest) := by
  obtain ⟨t, ht⟩ : ∃ t, encodedBodyChars (x :: xs') = '"' :: t := by
    cases xs' <;> exact ⟨_, rfl⟩
  rw [ht, List.cons_append]
  show (match parseJsonItems (g + 1 + 1) ('"' :: (t ++ ']' :: rest)) with
    | some (vs, r) => some (PyJson.arr vs, r)
    | none => none) = some (.arr ((x :: xs').map PyJson.str), rest)
  rw [show ('"' :: (t ++ ']' :: rest))
      = encodedBodyChars (x :: xs') ++ ']' :: rest by rw [ht]; rfl]
  rw [parseJsonItems_encoded xs' x rest g hg]

theorem jsonLoads_encodeArr (xs : List String) :
    jsonLoads (jsonEncodeArr xs) = some (.arr (xs.map PyJson.str)) := by
  cases xs with
  | nil => rfl
  | cons x xs' =>
    rw [jsonLoads, data_jsonEncodeArr]
    have hlen : ('[' :: (encodedBodyChars (x :: xs') ++ [']'])).length + 1
        = (encodedBodyChars (x :: xs')).length + 1 + 1 + 1 := by
      simp [List.length_append]
    rw [hlen]
    have hb := encodedBodyChars_length x xs'
    rw [show (encodedBodyChars (x :: xs') ++ [']'])
        = encodedBodyChars (x :: xs') ++ ']' :: [] from rfl]
    rw [parseJsonVal_arr x xs' [] (encodedBodyChars (x :: xs')).length
      (Nat.add_le_add_right hb 2)]
    rfl

end MedApp

namespace MedApp

theorem jsonLoads_bullet (s : String) (t : List Char) (h : s.data = '•' :: t) :
    jsonLoads s = none := by
  rw [jsonLoads, h, parseJsonVal]
  rw [skipWs_cons_of_not_ws '•' t (by decide)]
  rfl

theorem isBlank_bullet (s : String) (t : List Char) (h : s.data = '•' :: t) :
    isBlank s = false := by
  rw [isBlank, h, List.all_cons]
  rw [show '•'.isWhitespace = false from by decide]
  rfl

theorem newlineJoin_cons₂ (x y : String) (rest : List String) :
    newlineJoin (x :: y :: rest) = x ++ "\n" ++ newlineJoin (y :: rest) := rfl

theorem data_newlineJoin_cons₂ (x y : String) (rest : List String) :
    (newlineJoin (x :: y :: rest)).data
      = x.data ++ '\n' :: (newlineJoin (y :: rest)).data := by
  rw [newlineJoin_cons₂, data_string_append, data_string_append]
  rw [show ("\n" : String).data = ['\n'] from rfl]
  rw [List.append_assoc, List.singleton_append]

theorem data_newlineJoin_head (x : String) (xs : List String) (t : List Char)
    (h : x.data = '•' :: t) :
    ∃ u, (newlineJoin (x :: xs)).data = '•' :: u := by
  cases xs with
  | nil => exact ⟨t, h⟩
  | cons y ys =>
    refine ⟨t ++ '\n' :: (newlineJoin (y :: ys)).data, ?_⟩
    rw [data_newlineJoin_cons₂, h, List.cons_append]

theorem splitString_newlineJoin (xs : List String) :
    ∀ x : String, (∀ s ∈ x :: xs, '\n' ∉ s.data) →
    splitString '\n' (newlineJoin (x :: xs)) = x :: xs := by
  induction xs with
  | nil =>
    intro x h
    rw [show newlineJoin [x] = x from rfl, splitString]
    rw [splitChar_no_sep '\n' x.data (h x (List.mem_cons_self x []))]
    simp [stringMk_data]
  | cons y ys ih =>
    intro x h
    rw [splitString, data_newlineJoin_cons₂]
    rw [splitChar_append_sep '\n' x.data _ (h x (List.mem_cons_self x _))]
    have hys := ih y (fun s hs => h s (List.mem_cons_of_mem x hs))
    rw [splitString] at hys
    rw [List.map_cons, stringMk_data, hys]

theorem parseErrorExplanation_of_none (s : String) (hne : ¬ s = "")
    (hj : jsonLoads s = none) :
    parseErrorExplanation s
      = if '\n' ∈ s.data
        then ((splitString '\n' s).filter (fun line => !(isBlank line))).map
          lstripBulletSpace
        else [lstripBulletSpace s] := by
  rw [parseErrorExplanation, if_neg hne, hj]

theorem parseErrorExplanation_of_arr (s : String) (hne : ¬ s = "")
    (L : List PyJson) (hj : jsonLoads s = some (.arr L)) :
    parseErrorExplanation s
      = L.map (fun e =>
          match e with
          | .str s => lstripBulletSpace s
          | other => pyToString other) := by
  rw [parseErrorExplanation, if_neg hne, hj]

end MedApp

/-- C8 (amended): for every list of single-line bulleted error strings —
each starting with `"• "` and containing no embedded newline, as the
evaluators produce them — decoding the newline-joined legacy text and
decoding the JSON-array encoding yield the same ordered list of
bullet-stripped bare strings.  (With an embedded newline the two decodings
disagree, per `parse_error_explanation_newline_vs_json`.) -/
theorem parse_error_explanation_backcompat (xs : List String)
    (h : ∀ s ∈ xs, (∃ t, s.data = '•' :: ' ' :: t) ∧ '\n' ∉ s.data) :
    MedApp.parseErrorExplanation (MedApp.newlineJoin xs)
      = xs.map MedApp.lstripBulletSpace ∧
    MedApp.parseErrorExplanation (MedApp.jsonEncodeArr xs)
      = xs.map MedApp.lstripBulletSpace := by
  constructor
  · cases xs with
    | nil => rfl
    | cons x xs' =>
      obtain ⟨⟨t, hx⟩, hnl⟩ := h x (List.mem_cons_self x xs')
      obtain ⟨u, hu⟩ :=
        MedApp.data_newlineJoin_head x xs' (' ' :: t) hx
      have hne : ¬ (MedApp.newlineJoin (x :: xs') = "") := by
        intro hh
        rw [hh] at hu
        exact List.noConfusion hu
      rw [MedApp.parseErrorExplanation_of_none _ hne
        (MedApp.jsonLoads_bullet _ u hu)]
      cases xs' with
      | nil =>
        rw [show MedApp.newlineJoin [x] = x from rfl]
        rw [if_neg hnl]
        rfl
      | cons y ys =>
        have hmem : '\n' ∈ (MedApp.newlineJoin (x :: y :: ys)).data := by
          rw [MedApp.data_newlineJoin_cons₂]
          exact List.mem_append_right _ (List.mem_cons_self _ _)
        rw [if_pos hmem]
        rw [MedApp.splitString_newlineJoin (y :: ys) x
          (fun s hs => (h s hs).2)]
        rw [List.filter_eq_self.mpr ?_]
        intro a ha
        obtain ⟨⟨ta, hta⟩, _⟩ := h a ha
        simp [MedApp.isBlank_bullet a (' ' :: ta) hta]
  · cases xs with
    | nil => rfl
    | cons x xs' =>
      have hne : ¬ (MedApp.jsonEncodeArr (x :: xs') = "") := by
        intro hh
        have hd := congrArg String.data hh
        rw [MedApp.data_jsonEncodeArr] at hd
        exact List.noConfusion hd
      rw [MedApp.parseErrorExplanation_of_arr _ hne _
        (MedApp.jsonLoads_encodeArr (x :: xs'))]
      rw [List.map_map]
      rfl

/-- Witness for `parse_error_explanation_backcompat`: the two bulleted
errors `"• missing id"` and `"• over limit"` decode to
`["missing id", "over limit"]` through both storage encodings. -/
theorem parse_error_explanation_backcompat_witness :
    MedApp.parseErrorExplanation
      (MedApp.newlineJoin ["• missing id", "• over limit"])
      = ["missing id", "over limit"] ∧
    MedApp.parseErrorExplanation
      (MedApp.jsonEncodeArr ["• missing id", "• over limit"])
      = ["missing id", "over limit"] := by
  have hyp : ∀ s ∈ (["• missing id", "• over limit"] : List String),
      (∃ t, s.data = '•' :: ' ' :: t) ∧ '\n' ∉ s.data := by
    intro s hs
    rcases List.mem_cons.mp hs with rfl | hs2
    · exact ⟨⟨_, rfl⟩, by decide⟩
    rcases List.mem_cons.mp hs2 with rfl | hs3
    · exact ⟨⟨_, rfl⟩, by decide⟩
    exact absurd hs3 (List.not_mem_nil s)
  have h := parse_error_explanation_backcompat
    ["• missing id", "• over limit"] hyp
  exact ⟨h.1.trans (by decide), h.2.trans (by decide)⟩
